import Mathlib

/-!
# Screen capture similarity: a verification development of `src/main.cpp`

The program grabs the screen on a timer, compares the new grab with the
previously stored one pixel by pixel and shows the percentage of equal pixels.

The development has three layers:

* `Double`: the IEEE-754 binary64 arithmetic used by
  `(static_cast<double>(similarPixels) / (width * height)) * 100.0`
  (conversion from `int`, division and multiplication, round to nearest, ties to
  even), written with integers only so that it evaluates;
* `QImage`, `QPixmap`, `ScreenCapture.compareImages`: the comparison loop;
* `ScreenCapture`: the widget state, its slots and the queue of posted calls
  (`Qt::QueuedConnection`), processed first in first out.  Qt refuses
  `moveToThread` on a widget, so every slot runs on the thread of the widget and
  one queue orders all posted calls.

Signed overflow of `int` is modelled as wrap-around (`wrapInt`); the theorems
that need it assume fewer than `2^31` pixels.
-/

set_option maxRecDepth 100000

/-! ## IEEE-754 binary64 -/

/-- IEEE-754 binary64 value: NaN, a signed infinity, or the finite value
`(-1)^neg * m * 2^e`.  The arithmetic below only produces finite values in
canonical form: `m < 2^53`, `-1074 ≤ e ≤ 971` and `2^52 ≤ m` unless `e = -1074`. -/
inductive Double where
  | nan : Double
  | inf (neg : Bool) : Double
  | fin (neg : Bool) (m : Nat) (e : Int) : Double
deriving DecidableEq, Repr

namespace Double

/-- Number of binary digits of `n`, by repeated halving (`fuel` bounds the halvings). -/
def bitLengthAux : Nat → Nat → Nat
  | 0, _ => 0
  | fuel + 1, n => if n = 0 then 0 else bitLengthAux fuel (n / 2) + 1

/-- Number of binary digits of `n`: `2^(bitLength n - 1) ≤ n < 2^(bitLength n)` for `n > 0`. -/
def bitLength (n : Nat) : Nat := bitLengthAux n n

/-- Numerator of `n / (d * 2^E)` as a fraction of naturals. -/
def scaleNum (n : Nat) (E : Int) : Nat := n * 2 ^ (-E).toNat

/-- Denominator of `n / (d * 2^E)` as a fraction of naturals. -/
def scaleDen (d : Nat) (E : Int) : Nat := d * 2 ^ E.toNat

/-- Nearest natural to `num / den`, ties to the even neighbour. -/
def roundHalfEven (num den : Nat) : Nat :=
  let q := num / den
  let r := num % den
  if 2 * r < den then q
  else if den < 2 * r then q + 1
  else if q % 2 = 0 then q else q + 1

/-- Exponent of the unit in the last place for the positive rational `n / d`:
the `E` with `2^52 ≤ n / (d * 2^E) < 2^53`, but never below the subnormal
exponent `-1074`. -/
def expOf (n d : Nat) : Int :=
  let E0 : Int := (bitLength n : Int) - (bitLength d : Int) - 53
  let E : Int := if scaleNum n (E0 + 53) < scaleDen d (E0 + 53) then E0 else E0 + 1
  max E (-1074)

/-- Round the positive rational `n / d` to the nearest binary64 value (ties to
even) and give it the sign `neg`; overflow gives an infinity. -/
def roundPos (neg : Bool) (n d : Nat) : Double :=
  let E := expOf n d
  let m := roundHalfEven (scaleNum n E) (scaleDen d E)
  let m1 : Nat := if m = 2 ^ 53 then 2 ^ 52 else m
  let E1 : Int := if m = 2 ^ 53 then E + 1 else E
  if 971 < E1 then inf neg else fin neg m1 E1

/-- Signed zero. -/
def zero (neg : Bool) : Double := fin neg 0 (-1074)

/-- Conversion `int → double` (`static_cast<double>(i)` and the usual arithmetic
conversion of an `int` operand). -/
def ofInt (i : Int) : Double :=
  if i = 0 then zero false else roundPos (decide (i < 0)) i.natAbs 1

/-- Binary64 division. -/
def div : Double → Double → Double
  | nan, _ => nan
  | _, nan => nan
  | inf _, inf _ => nan
  | inf s, fin t _ _ => inf (s != t)
  | fin s _ _, inf t => zero (s != t)
  | fin s m e, fin t m2 e2 =>
    if m2 = 0 then (if m = 0 then nan else inf (s != t))
    else if m = 0 then zero (s != t)
    else roundPos (s != t) (scaleDen m (e - e2)) (scaleNum m2 (e - e2))

/-- Binary64 multiplication. -/
def mul : Double → Double → Double
  | nan, _ => nan
  | _, nan => nan
  | inf s, inf t => inf (s != t)
  | inf s, fin t m _ => if m = 0 then nan else inf (s != t)
  | fin s m _, inf t => if m = 0 then nan else inf (s != t)
  | fin s m e, fin t m2 e2 =>
    if m * m2 = 0 then zero (s != t)
    else roundPos (s != t) (scaleDen (m * m2) (e + e2)) (scaleNum 1 (e + e2))

/-- Signed integer numerator of a finite value once both operands of a
comparison are brought to the common exponent `min e e2`. -/
def signedAt (neg : Bool) (m : Nat) (shift : Int) : Int :=
  (if neg then -1 else 1) * ((m * 2 ^ shift.toNat : Nat) : Int)

/-- Binary64 comparison `a <= b`: false as soon as an operand is NaN. -/
def le : Double → Double → Bool
  | nan, _ => false
  | _, nan => false
  | inf s, inf t => s || !t
  | inf s, fin _ _ _ => s
  | fin _ _ _, inf t => !t
  | fin s m e, fin t m2 e2 => decide (signedAt s m (e - e2) ≤ signedAt t m2 (e2 - e))

/-- The rational value of a finite binary64, nothing for NaN and infinities. -/
def toRat? : Double → Option ℚ
  | fin neg m e => some ((if neg then -1 else 1) * (m : ℚ) * (2 : ℚ) ^ e)
  | _ => none

end Double

/-! ## Images -/

/-- A `QRgb` pixel value (`unsigned int`, `0xAARRGGBB`). -/
abbrev QRgb := Nat

/-- Opaque white, `0xFFFFFFFF`. -/
def QRgb.white : QRgb := 4294967295

/-- Opaque black, `0xFF000000`. -/
def QRgb.black : QRgb := 4278190080

/-- A `QImage`: its dimensions and its scanlines, row after row. -/
structure QImage where
  width : Nat
  height : Nat
  pixels : List QRgb
deriving DecidableEq, Repr

namespace QImage

/-- The `QSize` of the image, as `img.size()` returns it. -/
def size (img : QImage) : Nat × Nat := (img.width, img.height)

/-- The value of `img.pixel(x, y)`; Qt answers `12345` outside the image. -/
def pixel (img : QImage) (x y : Nat) : QRgb :=
  if x < img.width ∧ y < img.height then img.pixels.getD (y * img.width + x) 0 else 12345

end QImage

/-- A `QPixmap`, known by the image `toImage()` converts it to. -/
structure QPixmap where
  toImage : QImage
deriving DecidableEq, Repr

/-- The null pixmap of a default-constructed `QPixmap`: no pixels, size 0x0. -/
def QPixmap.null : QPixmap := ⟨⟨0, 0, []⟩⟩

/-- Value of `pixmap.scaled(size, Qt::KeepAspectRatio, Qt::SmoothTransformation)`:
the pixmap it was made from and the box it was fitted in. -/
structure ScaledPixmap where
  source : QPixmap
  boxWidth : Nat
  boxHeight : Nat
deriving DecidableEq, Repr

/-- Scale a pixmap to fit in a box. -/
def QPixmap.scaled (p : QPixmap) (w h : Nat) : ScaledPixmap := ⟨p, w, h⟩

/-! ## The widget -/

/-- Text of `similarityLabel`: the constructor's `"Similarity: N/A"`, or
`QString("Similarity: %1%").arg(p, 0, 'f', 2)` for the percentage `p`. -/
inductive SimilarityText where
  | notAvailable : SimilarityText
  | percent (p : Double) : SimilarityText
deriving DecidableEq, Repr

/-- Text and style sheet of the `runningIndecator` label. -/
structure Indicator where
  text : String
  styleSheet : String
deriving DecidableEq, Repr

/-- What `startCapture` writes in the indicator. -/
def Indicator.running : Indicator := ⟨"Program is running", "color: green;"⟩

/-- What the constructor and `stopCapture` write in the indicator. -/
def Indicator.notRunning : Indicator := ⟨"Program is not running", "color: red;"⟩

/-- State of a `QTimer`. -/
structure QTimer where
  active : Bool
  interval : Nat
deriving DecidableEq, Repr

/-- A call posted to the event queue through `Qt::QueuedConnection`. -/
inductive Event where
  | displayScreenshot (screenshot : QPixmap) : Event
  | compareScreenshots (screenshot : QPixmap) : Event
  | updateUI (similarityPercentage : Double) : Event
deriving DecidableEq, Repr

/-- The members of `class ScreenCapture` that change while the program runs,
with the queue of posted calls and the warnings written by `qWarning`. -/
structure ScreenCapture where
  similarityLabel : SimilarityText
  runningIndecator : Indicator
  imageLabel : ScaledPixmap
  captureTimer : QTimer
  previousScreenshot : QPixmap
  eventQueue : List Event
  warnings : List String
deriving DecidableEq, Repr

/-- Wrap an integer to the 32-bit two's complement range of `int`. -/
def wrapInt (i : Int) : Int := (i + 2 ^ 31) % 2 ^ 32 - 2 ^ 31

/-- Local variables changed by the two nested loops of `compareImages`:
the counter, and (ghost) the coordinates read and compared so far. -/
structure LoopState where
  similarPixels : Int
  compared : List (Nat × Nat)
deriving DecidableEq, Repr

/-- What a call of `compareImages` does: the `double` it returns, the warnings
it writes, and (ghost) the coordinates whose pixels it compared, in order. -/
structure CompareOutcome where
  value : Double
  warnings : List String
  compared : List (Nat × Nat)
deriving DecidableEq, Repr

namespace ScreenCapture

/-- Body of the inner loop at `(x, y)`. -/
def compareAt (img1 img2 : QImage) (y : Nat) (st : LoopState) (x : Nat) : LoopState :=
  let pixel1 := img1.pixel x y
  let pixel2 := img2.pixel x y
  { similarPixels := if pixel1 = pixel2 then wrapInt (st.similarPixels + 1) else st.similarPixels
    compared := st.compared ++ [(x, y)] }

/-- The loop `for (int x = 0; x < width; ++x)` on row `y`. -/
def rowLoop (img1 img2 : QImage) (width : Nat) (st : LoopState) (y : Nat) : LoopState :=
  (List.range width).foldl (compareAt img1 img2 y) st

/-- The loop `for (int y = 0; y < height; ++y)`. -/
def gridLoop (img1 img2 : QImage) (width height : Nat) : LoopState :=
  (List.range height).foldl (rowLoop img1 img2 width) ⟨0, []⟩

/-- The private method `compareImages`. -/
def compareImages (self : ScreenCapture) (screenshot : QPixmap) : CompareOutcome :=
  let img1 := screenshot.toImage
  let img2 := self.previousScreenshot.toImage
  if img1.size ≠ img2.size then
    { value := Double.zero false, warnings := ["Images have different sizes"], compared := [] }
  else
    let width := img1.width
    let height := img1.height
    let st := gridLoop img1 img2 width height
    let similarityPercentage :=
      Double.mul
        (Double.div (Double.ofInt st.similarPixels)
          (Double.ofInt (wrapInt ((width : Int) * (height : Int)))))
        (Double.ofInt 100)
    { value := similarityPercentage, warnings := [], compared := st.compared }

/-- The constructor; `desktop` is what the initial `grabWindow` returns. -/
def new (desktop : QPixmap) : ScreenCapture :=
  { similarityLabel := SimilarityText.notAvailable
    runningIndecator := Indicator.notRunning
    imageLabel := desktop.scaled 700 500
    captureTimer := ⟨false, 0⟩
    previousScreenshot := QPixmap.null
    eventQueue := []
    warnings := [] }

/-- The slot `startCapture`. -/
def startCapture (self : ScreenCapture) : ScreenCapture :=
  { self with
    captureTimer := ⟨true, 60000⟩
    runningIndecator := Indicator.running }

/-- The slot `stopCapture`. -/
def stopCapture (self : ScreenCapture) : ScreenCapture :=
  { self with
    captureTimer := { self.captureTimer with active := false }
    runningIndecator := Indicator.notRunning }

/-- The slot `captureScreen`; `screenshot` is what `grabWindow` returns.  The
signal `updateImage` is connected to `displayScreenshot` with a queued
connection, so both calls are posted, the display first. -/
def captureScreen (self : ScreenCapture) (screenshot : QPixmap) : ScreenCapture :=
  { self with
    eventQueue := self.eventQueue ++
      [Event.displayScreenshot screenshot, Event.compareScreenshots screenshot] }

/-- The slot `compareScreenshots`. -/
def compareScreenshots (self : ScreenCapture) (screenshot : QPixmap) : ScreenCapture :=
  let outcome := compareImages self screenshot
  { self with
    warnings := self.warnings ++ outcome.warnings
    eventQueue := self.eventQueue ++ [Event.updateUI outcome.value]
    previousScreenshot := screenshot }

/-- The slot `updateUI`. -/
def updateUI (self : ScreenCapture) (similarityPercentage : Double) : ScreenCapture :=
  { self with similarityLabel := SimilarityText.percent similarityPercentage }

/-- The slot `displayScreenshot`; the label has the fixed size 700x500. -/
def displayScreenshot (self : ScreenCapture) (screenshot : QPixmap) : ScreenCapture :=
  { self with imageLabel := screenshot.scaled 700 500 }

/-- Run the slot a posted call names. -/
def deliver (self : ScreenCapture) : Event → ScreenCapture
  | Event.displayScreenshot p => displayScreenshot self p
  | Event.compareScreenshots p => compareScreenshots self p
  | Event.updateUI d => updateUI self d

/-- One turn of the event loop: take the oldest posted call and run it. -/
def dispatch (self : ScreenCapture) : ScreenCapture :=
  match self.eventQueue with
  | [] => self
  | e :: rest => deliver { self with eventQueue := rest } e

/-- Turns of the event loop a posted call can cause, itself included. -/
def cost : Event → Nat
  | Event.compareScreenshots _ => 2
  | _ => 1

/-- Turns of the event loop, at most `fuel`, while calls are posted. -/
def processEvents : Nat → ScreenCapture → ScreenCapture
  | 0, self => self
  | fuel + 1, self =>
    match self.eventQueue with
    | [] => self
    | _ :: _ => processEvents fuel (dispatch self)

/-- Run the event loop until no call is posted. -/
def drain (self : ScreenCapture) : ScreenCapture :=
  processEvents (self.eventQueue.map cost).sum self

/-- One capture cycle: the timer fires, `captureScreen` grabs `screenshot`, and
the event loop runs every posted call. -/
def cycle (self : ScreenCapture) (screenshot : QPixmap) : ScreenCapture :=
  drain (captureScreen self screenshot)

/-- Capture cycles, one per grabbed frame. -/
def runCycles (self : ScreenCapture) (frames : List QPixmap) : ScreenCapture :=
  frames.foldl cycle self

end ScreenCapture

/-- What can happen to the widget: a click on a button, a timeout of the capture
timer (with the frame the grab returns), a turn of the event loop. -/
inductive Stimulus where
  | clickStart : Stimulus
  | clickStop : Stimulus
  | timeout (screenshot : QPixmap) : Stimulus
  | processEvent : Stimulus
deriving DecidableEq, Repr

namespace ScreenCapture

/-- Effect of one action; a stopped timer does not fire. -/
def step (self : ScreenCapture) : Stimulus → ScreenCapture
  | Stimulus.clickStart => startCapture self
  | Stimulus.clickStop => stopCapture self
  | Stimulus.timeout screenshot =>
    if self.captureTimer.active then captureScreen self screenshot else self
  | Stimulus.processEvent => dispatch self

/-- Effect of a sequence of actions. -/
def run (self : ScreenCapture) (actions : List Stimulus) : ScreenCapture :=
  actions.foldl step self

end ScreenCapture

/-! ## Example frames -/

/-- The 2x2 frame white, white, black, black. -/
def frameA : QPixmap := ⟨⟨2, 2, [QRgb.white, QRgb.white, QRgb.black, QRgb.black]⟩⟩

/-- The 2x2 frame white, black, black, black. -/
def frameB : QPixmap := ⟨⟨2, 2, [QRgb.white, QRgb.black, QRgb.black, QRgb.black]⟩⟩

/-- A 3x1 frame. -/
def frameC : QPixmap := ⟨⟨3, 1, [QRgb.black, QRgb.black, QRgb.black]⟩⟩

/-- A 3x1 frame that differs from `frameC` at two of its three pixels. -/
def frameD : QPixmap := ⟨⟨3, 1, [QRgb.black, QRgb.white, QRgb.white]⟩⟩

/-- A widget whose stored previous frame is `prev`. -/
def withPrevious (prev : QPixmap) : ScreenCapture :=
  { ScreenCapture.new QPixmap.null with previousScreenshot := prev }

namespace ScreenCapture

/-- The frame of the last posted `compareScreenshots` call, if there is one. -/
def lastCompared : List Event → Option QPixmap
  | [] => none
  | Event.compareScreenshots p :: rest =>
    match lastCompared rest with
    | some q => some q
    | none => some p
  | Event.displayScreenshot _ :: rest => lastCompared rest
  | Event.updateUI _ :: rest => lastCompared rest

end ScreenCapture

/-! ## Specification-side definitions -/

/-- The coordinates of the grid of `a` at which the pixels of `a` and `b` differ. -/
def differing (a b : QImage) : Finset (Nat × Nat) :=
  (Finset.range a.width ×ˢ Finset.range a.height).filter
    (fun p => a.pixel p.1 p.2 ≠ b.pixel p.1 p.2)

/-- The coordinates of a `width` x `height` grid, row after row. -/
def gridCoordinates (width height : Nat) : List (Nat × Nat) :=
  (List.range height).flatMap (fun y => (List.range width).map (fun x => (x, y)))

/-- The indicator agrees with the timer. -/
def IndicatorAgrees (s : ScreenCapture) : Prop :=
  (s.captureTimer.active = true →
    s.runningIndecator = Indicator.running ∧ s.captureTimer.interval = 60000) ∧
  (s.captureTimer.active = false → s.runningIndecator = Indicator.notRunning)


/-- The posted calls the event loop runs, in the order it runs them, for at
most `fuel` turns. -/
def ScreenCapture.deliveries : Nat → ScreenCapture → List Event
  | 0, _ => []
  | fuel + 1, self =>
    match self.eventQueue with
    | [] => []
    | e :: _ => e :: ScreenCapture.deliveries fuel (ScreenCapture.dispatch self)

/-- The reading of "the new frame is shown only after it has been compared and
stored": at every turn of the event loop after `captureScreen` grabbed `f`, if
the image area shows `f` then `f` is the stored previous frame. -/
def ShownOnlyAfterStored (s : ScreenCapture) (f : QPixmap) : Prop :=
  ∀ turns : Nat,
    ((ScreenCapture.dispatch)^[turns] (ScreenCapture.captureScreen s f)).imageLabel.source = f →
    ((ScreenCapture.dispatch)^[turns] (ScreenCapture.captureScreen s f)).previousScreenshot = f

namespace Double

/-- The rational that `roundPos` rounds `n / d` to, when no overflow occurs: the
rounded significand times the unit in the last place. -/
def roundValue (n d : Nat) : ℚ :=
  ((roundHalfEven (scaleNum n (expOf n d)) (scaleDen d (expOf n d)) : Nat) : ℚ)
    * (2 : ℚ) ^ expOf n d

end Double

/-! ## Rounding -/

namespace Double

theorem bitLengthAux_zero (fuel : Nat) : bitLengthAux fuel 0 = 0 := by
  cases fuel <;> simp [bitLengthAux]

theorem bitLengthAux_spec (fuel : Nat) :
    ∀ n : Nat, n ≤ fuel →
      n < 2 ^ bitLengthAux fuel n ∧ (n ≠ 0 → 2 ^ bitLengthAux fuel n ≤ 2 * n) := by
  induction fuel with
  | zero =>
    intro n h
    have h0 : n = 0 := by omega
    subst h0
    simp [bitLengthAux]
  | succ fuel ih =>
    intro n h
    by_cases hn : n = 0
    · subst hn
      simp [bitLengthAux]
    · have ih2 := ih (n / 2) (by omega)
      simp only [bitLengthAux, hn, if_false, pow_succ]
      refine ⟨by omega, fun _ => ?_⟩
      by_cases h2 : n / 2 = 0
      · rw [h2, bitLengthAux_zero]
        have : n = 1 := by omega
        subst this
        norm_num
      · have := ih2.2 h2
        omega

theorem lt_two_pow_bitLength (n : Nat) : n < 2 ^ bitLength n :=
  (bitLengthAux_spec n n (le_refl n)).1

theorem two_pow_bitLength_le (n : Nat) (hn : n ≠ 0) : 2 ^ bitLength n ≤ 2 * n :=
  (bitLengthAux_spec n n (le_refl n)).2 hn

/-- An integer power of two is the quotient of the two natural powers that
`scaleDen` and `scaleNum` multiply by. -/
theorem two_zpow_split (E : Int) :
    (2 : ℚ) ^ E = (2 : ℚ) ^ E.toNat / (2 : ℚ) ^ (-E).toNat := by
  have h : E = (E.toNat : Int) - ((-E).toNat : Int) := (Int.toNat_sub_toNat_neg E).symm
  conv_lhs => rw [h]
  rw [zpow_sub₀ (by norm_num : (2 : ℚ) ≠ 0), zpow_natCast, zpow_natCast]

theorem scale_quotient (n d : Nat) (E : Int) :
    ((scaleNum n E : Nat) : ℚ) / ((scaleDen d E : Nat) : ℚ) = (n : ℚ) / (d : ℚ) / (2 : ℚ) ^ E := by
  have h1 : ((2 : ℚ) ^ E.toNat) ≠ 0 := pow_ne_zero _ (by norm_num)
  have h2 : ((2 : ℚ) ^ (-E).toNat) ≠ 0 := pow_ne_zero _ (by norm_num)
  rw [two_zpow_split E]
  simp only [scaleNum, scaleDen, Nat.cast_mul, Nat.cast_pow, Nat.cast_ofNat]
  by_cases hd : (d : ℚ) = 0
  · simp [hd]
  · field_simp

theorem scaleDen_pos (d : Nat) (E : Int) (hd : 0 < d) : 0 < scaleDen d E :=
  Nat.mul_pos hd (pow_pos (by norm_num) _)

theorem scaleNum_pos (n : Nat) (E : Int) (hn : 0 < n) : 0 < scaleNum n E :=
  Nat.mul_pos hn (pow_pos (by norm_num) _)

/-- Comparison of the scaled fraction with a natural number, in rationals. -/
theorem scale_lt_iff (n d : Nat) (E : Int) (hd : 0 < d) (K : Nat) :
    scaleNum n E < K * scaleDen d E ↔ (n : ℚ) / (d : ℚ) < (K : ℚ) * (2 : ℚ) ^ E := by
  have hD : (0 : ℚ) < ((scaleDen d E : Nat) : ℚ) := by exact_mod_cast scaleDen_pos d E hd
  have hp : (0 : ℚ) < (2 : ℚ) ^ E := zpow_pos (by norm_num) _
  rw [← div_lt_iff₀ hp, ← scale_quotient, div_lt_iff₀ hD]
  exact_mod_cast Iff.rfl

theorem scale_le_iff (n d : Nat) (E : Int) (hd : 0 < d) (K : Nat) :
    K * scaleDen d E ≤ scaleNum n E ↔ (K : ℚ) * (2 : ℚ) ^ E ≤ (n : ℚ) / (d : ℚ) := by
  rw [← not_lt, ← not_lt, scale_lt_iff n d E hd K]

theorem scale_nat_le_iff (n d : Nat) (E : Int) (hd : 0 < d) (K : Nat) :
    scaleNum n E ≤ K * scaleDen d E ↔ (n : ℚ) / (d : ℚ) ≤ (K : ℚ) * (2 : ℚ) ^ E := by
  have hD : (0 : ℚ) < ((scaleDen d E : Nat) : ℚ) := by exact_mod_cast scaleDen_pos d E hd
  have hp : (0 : ℚ) < (2 : ℚ) ^ E := zpow_pos (by norm_num) _
  rw [← div_le_iff₀ hp, ← scale_quotient, div_le_iff₀ hD]
  exact_mod_cast Iff.rfl

end Double

namespace Double

/-- The exponent `expOf` would choose without the subnormal floor. -/
theorem expOf_unclipped (n d : Nat) (hn : 0 < n) (hd : 0 < d) :
    ∃ E : Int, expOf n d = max E (-1074) ∧
      (2 : ℚ) ^ (E + 52) ≤ (n : ℚ) / (d : ℚ) ∧ (n : ℚ) / (d : ℚ) < (2 : ℚ) ^ (E + 53) := by
  have hnq : (0 : ℚ) < n := by exact_mod_cast hn
  have hdq : (0 : ℚ) < d := by exact_mod_cast hd
  have two_ne : (2 : ℚ) ≠ 0 := by norm_num
  have hn1 : (n : ℚ) < (2 : ℚ) ^ bitLength n := by exact_mod_cast lt_two_pow_bitLength n
  have hn2 : (2 : ℚ) ^ bitLength n ≤ 2 * (n : ℚ) := by
    exact_mod_cast two_pow_bitLength_le n (by omega)
  have hd1 : (d : ℚ) < (2 : ℚ) ^ bitLength d := by exact_mod_cast lt_two_pow_bitLength d
  have hd2 : (2 : ℚ) ^ bitLength d ≤ 2 * (d : ℚ) := by
    exact_mod_cast two_pow_bitLength_le d (by omega)
  have hbn : (0 : ℚ) < (2 : ℚ) ^ bitLength n := pow_pos (by norm_num) _
  have hbd : (0 : ℚ) < (2 : ℚ) ^ bitLength d := pow_pos (by norm_num) _
  have hE0 : ∀ c : Int, (2 : ℚ) ^ ((bitLength n : Int) - (bitLength d : Int) - 53 + c)
      = (2 : ℚ) ^ bitLength n / (2 : ℚ) ^ bitLength d * (2 : ℚ) ^ (c - 53) := by
    intro c
    rw [show (bitLength n : Int) - (bitLength d : Int) - 53 + c
        = ((bitLength n : Int) - (bitLength d : Int)) + (c - 53) by ring,
      zpow_add₀ two_ne, zpow_sub₀ two_ne, zpow_natCast, zpow_natCast]
  have hlow : (2 : ℚ) ^ ((bitLength n : Int) - (bitLength d : Int) - 53 + 52)
      ≤ (n : ℚ) / (d : ℚ) := by
    rw [hE0 52, show ((52 : Int) - 53) = -1 by norm_num, zpow_neg_one, div_mul_eq_mul_div,
      div_le_div_iff₀ hbd hdq]
    nlinarith
  have hupp : (n : ℚ) / (d : ℚ)
      < (2 : ℚ) ^ ((bitLength n : Int) - (bitLength d : Int) - 53 + 1 + 53) := by
    rw [show (bitLength n : Int) - (bitLength d : Int) - 53 + 1 + 53
        = (bitLength n : Int) - (bitLength d : Int) - 53 + 54 by ring, hE0 54,
      show ((54 : Int) - 53) = 1 by norm_num, zpow_one, div_mul_eq_mul_div,
      div_lt_div_iff₀ hdq hbd]
    nlinarith
  by_cases htest : scaleNum n ((bitLength n : Int) - (bitLength d : Int) - 53 + 53)
      < scaleDen d ((bitLength n : Int) - (bitLength d : Int) - 53 + 53)
  · refine ⟨(bitLength n : Int) - (bitLength d : Int) - 53, ?_, hlow, ?_⟩
    · simp only [expOf, htest, if_true]
    · have := (scale_lt_iff n d _ hd 1).mp (by simpa using htest)
      simpa using this
  · refine ⟨(bitLength n : Int) - (bitLength d : Int) - 53 + 1, ?_, ?_, hupp⟩
    · simp only [expOf, htest, if_false]
    · have := (scale_le_iff n d _ hd 1).mp (by simpa using not_lt.mp htest)
      rw [show (bitLength n : Int) - (bitLength d : Int) - 53 + 1 + 52
        = (bitLength n : Int) - (bitLength d : Int) - 53 + 53 by ring]
      simpa using this

/-- In the normal range the exponent brackets the value:
`2^(E+52) ≤ n/d < 2^(E+53)`. -/
theorem expOf_bounds (n d : Nat) (hn : 0 < n) (hd : 0 < d)
    (hlo : (2 : ℚ) ^ (-1022 : Int) ≤ (n : ℚ) / (d : ℚ)) :
    (2 : ℚ) ^ (expOf n d + 52) ≤ (n : ℚ) / (d : ℚ) ∧
      (n : ℚ) / (d : ℚ) < (2 : ℚ) ^ (expOf n d + 53) := by
  obtain ⟨E, hE, h1, h2⟩ := expOf_unclipped n d hn hd
  have hlt : (2 : ℚ) ^ (-1022 : Int) < (2 : ℚ) ^ (E + 53) := lt_of_le_of_lt hlo h2
  have hexp : (-1022 : Int) < E + 53 := (zpow_lt_zpow_iff_right₀ (by norm_num)).mp hlt
  have : expOf n d = E := by rw [hE]; exact max_eq_left (by omega)
  rw [this]
  exact ⟨h1, h2⟩

/-- The exponent is determined by the bracket. -/
theorem expOf_eq (n d : Nat) (hn : 0 < n) (hd : 0 < d) (e : Int) (he : -1074 ≤ e)
    (h1 : (2 : ℚ) ^ (e + 52) ≤ (n : ℚ) / (d : ℚ))
    (h2 : (n : ℚ) / (d : ℚ) < (2 : ℚ) ^ (e + 53)) : expOf n d = e := by
  have hlo : (2 : ℚ) ^ (-1022 : Int) ≤ (n : ℚ) / (d : ℚ) :=
    le_trans ((zpow_le_zpow_iff_right₀ (by norm_num)).mpr (by omega)) h1
  obtain ⟨b1, b2⟩ := expOf_bounds n d hn hd hlo
  have c1 : expOf n d + 52 < e + 53 :=
    (zpow_lt_zpow_iff_right₀ (by norm_num : (1 : ℚ) < 2)).mp (lt_of_le_of_lt b1 h2)
  have c2 : e + 52 < expOf n d + 53 :=
    (zpow_lt_zpow_iff_right₀ (by norm_num : (1 : ℚ) < 2)).mp (lt_of_le_of_lt h1 b2)
  omega

end Double

namespace Double

theorem roundHalfEven_err (N D : Nat) (hD : 0 < D) :
    |((roundHalfEven N D : Nat) : ℚ) - (N : ℚ) / (D : ℚ)| ≤ 1 / 2 := by
  have hDq : (0 : ℚ) < D := by exact_mod_cast hD
  have hN : (N : ℚ) = (D : ℚ) * ((N / D : Nat) : ℚ) + ((N % D : Nat) : ℚ) := by
    exact_mod_cast (Nat.div_add_mod N D).symm
  have hx : (N : ℚ) / (D : ℚ) = ((N / D : Nat) : ℚ) + ((N % D : Nat) : ℚ) / (D : ℚ) := by
    rw [hN]
    field_simp
    ring
  have hr0 : (0 : ℚ) ≤ ((N % D : Nat) : ℚ) / (D : ℚ) := by positivity
  have hr1 : ((N % D : Nat) : ℚ) / (D : ℚ) < 1 := by
    rw [div_lt_one hDq]
    exact_mod_cast Nat.mod_lt N hD
  rw [hx, abs_le]
  unfold roundHalfEven
  simp only
  split_ifs with h1 h2 h3
  · have : ((N % D : Nat) : ℚ) / (D : ℚ) ≤ 1 / 2 := by
      rw [div_le_iff₀ hDq]
      have : (2 : ℚ) * ((N % D : Nat) : ℚ) < (D : ℚ) := by exact_mod_cast h1
      linarith
    constructor <;> linarith
  · have : 1 / 2 ≤ ((N % D : Nat) : ℚ) / (D : ℚ) := by
      rw [le_div_iff₀ hDq]
      have : (D : ℚ) < (2 : ℚ) * ((N % D : Nat) : ℚ) := by exact_mod_cast h2
      linarith
    push_cast
    constructor <;> linarith
  · have : ((N % D : Nat) : ℚ) / (D : ℚ) ≤ 1 / 2 := by
      rw [div_le_iff₀ hDq]
      have : (2 : ℚ) * ((N % D : Nat) : ℚ) ≤ (D : ℚ) := by exact_mod_cast not_lt.mp h2
      linarith
    constructor <;> linarith
  · have : 1 / 2 ≤ ((N % D : Nat) : ℚ) / (D : ℚ) := by
      rw [le_div_iff₀ hDq]
      have : (D : ℚ) ≤ (2 : ℚ) * ((N % D : Nat) : ℚ) := by exact_mod_cast not_lt.mp h1
      linarith
    push_cast
    constructor <;> linarith

theorem roundHalfEven_ge (N D K : Nat) (hD : 0 < D) (h : K * D ≤ N) :
    K ≤ roundHalfEven N D := by
  have hq : K ≤ N / D := (Nat.le_div_iff_mul_le hD).mpr h
  unfold roundHalfEven
  simp only
  split_ifs <;> omega

theorem roundHalfEven_le (N D K : Nat) (hD : 0 < D) (h : N ≤ K * D) :
    roundHalfEven N D ≤ K := by
  have hq : N / D ≤ K := by
    calc N / D ≤ K * D / D := Nat.div_le_div_right h
      _ = K := Nat.mul_div_cancel K hD
  have hdm : D * (N / D) + N % D = N := Nat.div_add_mod N D
  have hlt : 0 < N % D → N / D < K := by
    intro hr
    by_contra hc
    have hK : K = N / D := by omega
    have h' : D * (N / D) + N % D ≤ (N / D) * D := by rw [hdm]; rw [← hK]; exact h
    rw [Nat.mul_comm D] at h'
    omega
  unfold roundHalfEven
  simp only
  split_ifs <;> omega

theorem roundHalfEven_exact (D K : Nat) (hD : 0 < D) : roundHalfEven (K * D) D = K :=
  le_antisymm (roundHalfEven_le _ _ _ hD (le_refl _)) (roundHalfEven_ge _ _ _ hD (le_refl _))

/-- In the normal range `roundPos` gives a finite value in canonical form whose
value is `roundValue`. -/
theorem roundPos_normal (neg : Bool) (n d : Nat) (hn : 0 < n) (hd : 0 < d)
    (hlo : (2 : ℚ) ^ (-1022 : Int) ≤ (n : ℚ) / (d : ℚ))
    (hhi : (n : ℚ) / (d : ℚ) < (2 : ℚ) ^ (1023 : Int)) :
    ∃ m e, roundPos neg n d = fin neg m e ∧ 2 ^ 52 ≤ m ∧ m < 2 ^ 53 ∧
      (m : ℚ) * (2 : ℚ) ^ e = roundValue n d := by
  obtain ⟨b1, b2⟩ := expOf_bounds n d hn hd hlo
  have two_ne : (2 : ℚ) ≠ 0 := by norm_num
  have hD := scaleDen_pos d (expOf n d) hd
  have hE : expOf n d + 52 < 1023 :=
    (zpow_lt_zpow_iff_right₀ (by norm_num : (1 : ℚ) < 2)).mp (lt_of_le_of_lt b1 hhi)
  have hge : 2 ^ 52 ≤ roundHalfEven (scaleNum n (expOf n d)) (scaleDen d (expOf n d)) := by
    apply roundHalfEven_ge _ _ _ hD
    rw [scale_le_iff n d _ hd]
    rw [zpow_add₀ two_ne] at b1
    push_cast
    rw [mul_comm]
    exact_mod_cast b1
  have hle : roundHalfEven (scaleNum n (expOf n d)) (scaleDen d (expOf n d)) ≤ 2 ^ 53 := by
    apply roundHalfEven_le _ _ _ hD
    apply le_of_lt
    rw [scale_lt_iff n d _ hd]
    rw [zpow_add₀ two_ne] at b2
    push_cast
    rw [mul_comm]
    exact_mod_cast b2
  by_cases hm : roundHalfEven (scaleNum n (expOf n d)) (scaleDen d (expOf n d)) = 2 ^ 53
  · refine ⟨2 ^ 52, expOf n d + 1, ?_, le_refl _, by norm_num, ?_⟩
    · have : ¬ (971 < expOf n d + 1) := by omega
      simp only [roundPos, hm, if_true, this, if_false]
    · rw [roundValue, hm, zpow_add₀ two_ne]
      push_cast
      ring
  · refine ⟨roundHalfEven (scaleNum n (expOf n d)) (scaleDen d (expOf n d)), expOf n d,
      ?_, hge, by omega, rfl⟩
    have : ¬ (971 < expOf n d) := by omega
    simp only [roundPos, hm, if_false, this]

/-- Rounding moves a value in the normal range by at most half a unit in the
last place, that is by at most `2^-53` of the value. -/
theorem roundValue_err (n d : Nat) (hn : 0 < n) (hd : 0 < d)
    (hlo : (2 : ℚ) ^ (-1022 : Int) ≤ (n : ℚ) / (d : ℚ)) :
    |roundValue n d - (n : ℚ) / (d : ℚ)| ≤ (n : ℚ) / (d : ℚ) * (2 : ℚ) ^ (-53 : Int) := by
  obtain ⟨b1, _⟩ := expOf_bounds n d hn hd hlo
  have two_ne : (2 : ℚ) ≠ 0 := by norm_num
  have hp : (0 : ℚ) < (2 : ℚ) ^ expOf n d := zpow_pos (by norm_num) _
  have herr := roundHalfEven_err (scaleNum n (expOf n d)) (scaleDen d (expOf n d))
    (scaleDen_pos d _ hd)
  rw [scale_quotient] at herr
  have h1 : roundValue n d - (n : ℚ) / (d : ℚ)
      = (((roundHalfEven (scaleNum n (expOf n d)) (scaleDen d (expOf n d)) : Nat) : ℚ)
          - (n : ℚ) / (d : ℚ) / (2 : ℚ) ^ expOf n d) * (2 : ℚ) ^ expOf n d := by
    rw [roundValue]
    field_simp
    ring
  rw [h1, abs_mul, abs_of_pos hp]
  have h2 : (2 : ℚ) ^ expOf n d * (2 : ℚ) ^ (52 : Int) ≤ (n : ℚ) / (d : ℚ) := by
    rw [← zpow_add₀ two_ne]
    exact b1
  have h3 : (1 / 2 : ℚ) * (2 : ℚ) ^ expOf n d
      ≤ (n : ℚ) / (d : ℚ) * (2 : ℚ) ^ (-53 : Int) := by
    have e53 : (2 : ℚ) ^ (-53 : Int) = 1 / 2 ^ 53 := by norm_num [zpow_neg]
    have e52 : (2 : ℚ) ^ (52 : Int) = 2 ^ 52 := by norm_num
    rw [e53]
    rw [e52] at h2
    rw [mul_one_div, le_div_iff₀ (by positivity)]
    nlinarith
  calc _ ≤ (1 / 2 : ℚ) * (2 : ℚ) ^ expOf n d :=
        mul_le_mul_of_nonneg_right herr (le_of_lt hp)
    _ ≤ _ := h3

/-- Rounding does not cross a natural number below `2^53`, from below. -/
theorem roundValue_le_nat (n d C : Nat) (hn : 0 < n) (hd : 0 < d)
    (hlo : (2 : ℚ) ^ (-1022 : Int) ≤ (n : ℚ) / (d : ℚ))
    (hC : C < 2 ^ 53) (h : (n : ℚ) / (d : ℚ) ≤ (C : ℚ)) : roundValue n d ≤ (C : ℚ) := by
  obtain ⟨b1, _⟩ := expOf_bounds n d hn hd hlo
  have two_ne : (2 : ℚ) ≠ 0 := by norm_num
  have hp : (0 : ℚ) < (2 : ℚ) ^ expOf n d := zpow_pos (by norm_num) _
  have hCq : (C : ℚ) < (2 : ℚ) ^ (53 : Int) := by
    have h53 : (2 : ℚ) ^ (53 : Int) = ((2 ^ 53 : Nat) : ℚ) := by norm_num
    rw [h53]
    exact_mod_cast hC
  have hE : expOf n d + 52 < 53 :=
    (zpow_lt_zpow_iff_right₀ (by norm_num : (1 : ℚ) < 2)).mp
      (lt_of_le_of_lt b1 (lt_of_le_of_lt h hCq))
  have hnat : (((C * 2 ^ (-expOf n d).toNat : Nat) : ℚ)) * (2 : ℚ) ^ expOf n d = (C : ℚ) := by
    have hz : ((-expOf n d).toNat : Int) = -expOf n d := Int.toNat_of_nonneg (by omega)
    push_cast
    rw [← zpow_natCast (2 : ℚ), hz, mul_assoc, ← zpow_add₀ two_ne]
    simp
  have hle := roundHalfEven_le (scaleNum n (expOf n d)) (scaleDen d (expOf n d))
    (C * 2 ^ (-expOf n d).toNat) (scaleDen_pos d _ hd) (by
      rw [scale_nat_le_iff n d _ hd, hnat]
      exact h)
  rw [roundValue, ← hnat]
  exact mul_le_mul_of_nonneg_right (by exact_mod_cast hle) (le_of_lt hp)

/-- Rounding does not cross a natural number, from above. -/
theorem roundValue_ge_nat (n d C : Nat) (hn : 0 < n) (hd : 0 < d)
    (hlo : (2 : ℚ) ^ (-1022 : Int) ≤ (n : ℚ) / (d : ℚ))
    (hhi : (n : ℚ) / (d : ℚ) < (2 : ℚ) ^ (53 : Int))
    (h : (C : ℚ) ≤ (n : ℚ) / (d : ℚ)) : (C : ℚ) ≤ roundValue n d := by
  obtain ⟨b1, _⟩ := expOf_bounds n d hn hd hlo
  have two_ne : (2 : ℚ) ≠ 0 := by norm_num
  have hp : (0 : ℚ) < (2 : ℚ) ^ expOf n d := zpow_pos (by norm_num) _
  have hE : expOf n d + 52 < 53 :=
    (zpow_lt_zpow_iff_right₀ (by norm_num : (1 : ℚ) < 2)).mp (lt_of_le_of_lt b1 hhi)
  have hnat : (((C * 2 ^ (-expOf n d).toNat : Nat) : ℚ)) * (2 : ℚ) ^ expOf n d = (C : ℚ) := by
    have hz : ((-expOf n d).toNat : Int) = -expOf n d := Int.toNat_of_nonneg (by omega)
    push_cast
    rw [← zpow_natCast (2 : ℚ), hz, mul_assoc, ← zpow_add₀ two_ne]
    simp
  have hge := roundHalfEven_ge (scaleNum n (expOf n d)) (scaleDen d (expOf n d))
    (C * 2 ^ (-expOf n d).toNat) (scaleDen_pos d _ hd) (by
      rw [scale_le_iff n d _ hd, hnat]
      exact h)
  rw [roundValue, ← hnat]
  exact mul_le_mul_of_nonneg_right (by exact_mod_cast hge) (le_of_lt hp)

end Double

namespace Double

/-- The quotient `n / n` rounds to `1.0`. -/
theorem roundPos_self (neg : Bool) (n : Nat) (hn : 0 < n) :
    roundPos neg n n = fin neg (2 ^ 52) (-52) := by
  have hnq : (n : ℚ) ≠ 0 := by exact_mod_cast (Nat.pos_iff_ne_zero.mp hn)
  have hx : (n : ℚ) / (n : ℚ) = 1 := div_self hnq
  have hE : expOf n n = -52 := by
    apply expOf_eq n n hn hn (-52) (by norm_num)
    · rw [hx]; norm_num
    · rw [hx]; norm_num
  have hN : scaleNum n (-52) = 2 ^ 52 * scaleDen n (-52) := by
    simp [scaleNum, scaleDen, Nat.mul_comm]
  have hr : roundHalfEven (scaleNum n (-52)) (scaleDen n (-52)) = 2 ^ 52 := by
    rw [hN]
    exact roundHalfEven_exact _ _ (scaleDen_pos n _ hn)
  simp only [roundPos, hE, hr]
  norm_num

/-- Conversion of a positive `int` below `2^53` is exact. -/
theorem ofInt_pos (k : Nat) (hk : 0 < k) (hk2 : k < 2 ^ 53) :
    ∃ m e, ofInt (k : Int) = fin false m e ∧ 2 ^ 52 ≤ m ∧ m < 2 ^ 53 ∧
      (m : ℚ) * (2 : ℚ) ^ e = (k : ℚ) := by
  have hkq : (1 : ℚ) ≤ (k : ℚ) := by exact_mod_cast hk
  have hx : ((k : Nat) : ℚ) / ((1 : Nat) : ℚ) = (k : ℚ) := by simp
  have h53 : (2 : ℚ) ^ (53 : Int) = ((2 ^ 53 : Nat) : ℚ) := by norm_num
  have hlo : (2 : ℚ) ^ (-1022 : Int) ≤ ((k : Nat) : ℚ) / ((1 : Nat) : ℚ) := by
    rw [hx]
    refine le_trans ?_ hkq
    exact zpow_le_one_of_nonpos₀ (by norm_num) (by norm_num)
  have hlt53 : ((k : Nat) : ℚ) / ((1 : Nat) : ℚ) < (2 : ℚ) ^ (53 : Int) := by
    rw [hx, h53]
    exact_mod_cast hk2
  have hhi : ((k : Nat) : ℚ) / ((1 : Nat) : ℚ) < (2 : ℚ) ^ (1023 : Int) :=
    lt_of_lt_of_le hlt53 ((zpow_le_zpow_iff_right₀ (by norm_num)).mpr (by norm_num))
  obtain ⟨m, e, h1, h2, h3, h4⟩ := roundPos_normal false k 1 hk (by norm_num) hlo hhi
  refine ⟨m, e, ?_, h2, h3, ?_⟩
  · have hne : (k : Int) ≠ 0 := by exact_mod_cast (Nat.pos_iff_ne_zero.mp hk)
    have hnn : ¬ ((k : Int) < 0) := by omega
    simp only [ofInt, hne, if_false, hnn, decide_False, Int.natAbs_ofNat]
    exact h1
  · rw [h4]
    apply le_antisymm
    · exact roundValue_le_nat k 1 k hk (by norm_num) hlo hk2 (le_of_eq hx)
    · exact roundValue_ge_nat k 1 k hk (by norm_num) hlo hlt53 (le_of_eq hx.symm)

/-- The fraction `div` rounds is the quotient of the two values. -/
theorem div_quotient (m m2 : Nat) (k : Int) :
    ((scaleDen m k : Nat) : ℚ) / ((scaleNum m2 k : Nat) : ℚ)
      = (m : ℚ) / (m2 : ℚ) * (2 : ℚ) ^ k := by
  have h1 : ((2 : ℚ) ^ k.toNat) ≠ 0 := pow_ne_zero _ (by norm_num)
  have h2 : ((2 : ℚ) ^ (-k).toNat) ≠ 0 := pow_ne_zero _ (by norm_num)
  rw [two_zpow_split k]
  simp only [scaleNum, scaleDen, Nat.cast_mul, Nat.cast_pow, Nat.cast_ofNat]
  by_cases hd : (m2 : ℚ) = 0
  · simp [hd]
  · field_simp

/-- Comparison of two non-negative finite values is comparison of their
rational values. -/
theorem le_fin_iff (m m2 : Nat) (e e2 : Int) :
    le (fin false m e) (fin false m2 e2) = true ↔
      (m : ℚ) * (2 : ℚ) ^ e ≤ (m2 : ℚ) * (2 : ℚ) ^ e2 := by
  have two_ne : (2 : ℚ) ≠ 0 := by norm_num
  have hb : (0 : ℚ) < (2 : ℚ) ^ (-(e - e2)).toNat := pow_pos (by norm_num) _
  have he2 : (0 : ℚ) < (2 : ℚ) ^ e2 := zpow_pos (by norm_num) _
  have hsplit := two_zpow_split (e - e2)
  have hneg : e2 - e = -(e - e2) := by ring
  simp only [le, signedAt, decide_eq_true_eq, if_false, Bool.false_eq_true, one_mul, hneg]
  rw [Int.ofNat_le]
  have hcast : (m * 2 ^ (e - e2).toNat ≤ m2 * 2 ^ (-(e - e2)).toNat) ↔
      ((m : ℚ) * (2 : ℚ) ^ (e - e2).toNat ≤ (m2 : ℚ) * (2 : ℚ) ^ (-(e - e2)).toNat) := by
    exact_mod_cast Iff.rfl
  rw [hcast, ← div_le_iff₀ hb, mul_div_assoc, ← hsplit, zpow_sub₀ two_ne, mul_div_assoc',
    div_le_iff₀ he2]

end Double

namespace Double

theorem ofInt_hundred : ofInt 100 = fin false 7036874417766400 (-46) := by decide

theorem ofInt_zero : ofInt 0 = fin false 0 (-1074) := by decide

/-- What `roundPos` does to a positive rational `x` in `[2^-1022, 2^53)`: the
result is finite, in canonical form, within `x * 2^-53` of `x`, and not above
a natural number that `x` is not above. -/
theorem roundPos_spec (neg : Bool) (n d : Nat) (hn : 0 < n) (hd : 0 < d) (x : ℚ)
    (hx : (n : ℚ) / (d : ℚ) = x) (hlo : (2 : ℚ) ^ (-1022 : Int) ≤ x)
    (hhi : x < (2 : ℚ) ^ (53 : Int)) :
    ∃ m e, roundPos neg n d = fin neg m e ∧ 2 ^ 52 ≤ m ∧ m < 2 ^ 53 ∧
      |(m : ℚ) * (2 : ℚ) ^ e - x| ≤ x * (2 : ℚ) ^ (-53 : Int) ∧
      (∀ C : Nat, C < 2 ^ 53 → x ≤ (C : ℚ) → (m : ℚ) * (2 : ℚ) ^ e ≤ (C : ℚ)) := by
  subst hx
  have hhi2 : (n : ℚ) / (d : ℚ) < (2 : ℚ) ^ (1023 : Int) :=
    lt_of_lt_of_le hhi ((zpow_le_zpow_iff_right₀ (by norm_num)).mpr (by norm_num))
  obtain ⟨m, e, h1, h2, h3, h4⟩ := roundPos_normal neg n d hn hd hlo hhi2
  refine ⟨m, e, h1, h2, h3, ?_, ?_⟩
  · rw [h4]
    exact roundValue_err n d hn hd hlo
  · intro C hC hxC
    rw [h4]
    exact roundValue_le_nat n d C hn hd hlo hC hxC

theorem div_fin_pos (m m2 : Nat) (e e2 : Int) (hm : 0 < m) (hm2 : 0 < m2) :
    div (fin false m e) (fin false m2 e2)
      = roundPos false (scaleDen m (e - e2)) (scaleNum m2 (e - e2)) := by
  have h1 : m ≠ 0 := by omega
  have h2 : m2 ≠ 0 := by omega
  simp [div, h1, h2]

theorem mul_fin_pos (m m2 : Nat) (e e2 : Int) (hm : 0 < m) (hm2 : 0 < m2) :
    mul (fin false m e) (fin false m2 e2)
      = roundPos false (scaleDen (m * m2) (e + e2)) (scaleNum 1 (e + e2)) := by
  have h1 : m ≠ 0 := by omega
  have h2 : m2 ≠ 0 := by omega
  simp [mul, h1, h2]

/-- The expression `(static_cast<double>(M) / N) * 100.0` for `0 ≤ M ≤ N`,
`0 < N < 2^31`: a finite non-negative value, at most `100`, within `2^-45` of
`100 * M / N`. -/
theorem percent_spec (M N : Nat) (hN : 0 < N) (hN2 : N < 2 ^ 31) (hM : M ≤ N) :
    ∃ m e, mul (div (ofInt (M : Int)) (ofInt (N : Int))) (ofInt 100) = fin false m e ∧
      |(m : ℚ) * (2 : ℚ) ^ e - 100 * (M : ℚ) / (N : ℚ)| ≤ (2 : ℚ) ^ (-45 : Int) ∧
      (m : ℚ) * (2 : ℚ) ^ e ≤ 100 := by
  have two_ne : (2 : ℚ) ≠ 0 := by norm_num
  have hNq : (0 : ℚ) < (N : ℚ) := by exact_mod_cast hN
  obtain ⟨mb, eb, hb, hb1, _, hbv⟩ := ofInt_pos N hN (by omega)
  rcases Nat.eq_zero_or_pos M with hM0 | hMpos
  · subst hM0
    refine ⟨0, -1074, ?_, ?_, ?_⟩
    · have hmb : mb ≠ 0 := by omega
      rw [hb, ofInt_hundred]
      simp [ofInt, zero, div, mul, hmb]
    · simp
      positivity
    · simp
  · obtain ⟨ma, ea, ha, ha1, _, hav⟩ := ofInt_pos M hMpos (by omega)
    have hMq : (1 : ℚ) ≤ (M : ℚ) := by exact_mod_cast hMpos
    have hN31 : (N : ℚ) < 2 ^ 31 := by exact_mod_cast hN2
    have hMN : (M : ℚ) ≤ (N : ℚ) := by exact_mod_cast hM
    -- the quotient
    have hxpos : (0 : ℚ) < (M : ℚ) / (N : ℚ) := by positivity
    have hxle : (M : ℚ) / (N : ℚ) ≤ 1 := (div_le_one hNq).mpr hMN
    have hxlo : (1 : ℚ) / 2 ^ 31 ≤ (M : ℚ) / (N : ℚ) := by
      rw [div_le_div_iff₀ (by positivity) hNq]
      nlinarith
    have hratio1 : ((scaleDen ma (ea - eb) : Nat) : ℚ) / ((scaleNum mb (ea - eb) : Nat) : ℚ)
        = (M : ℚ) / (N : ℚ) := by
      rw [div_quotient, ← hav, ← hbv, zpow_sub₀ two_ne]
      have : (2 : ℚ) ^ eb ≠ 0 := zpow_ne_zero _ two_ne
      have hmbq : (mb : ℚ) ≠ 0 := by
        have : 0 < mb := by omega
        exact_mod_cast (Nat.pos_iff_ne_zero.mp this)
      field_simp
    obtain ⟨mq, eq, hq, hq1, _, hqerr, hqle⟩ :=
      roundPos_spec false (scaleDen ma (ea - eb)) (scaleNum mb (ea - eb))
        (scaleDen_pos _ _ (by omega)) (scaleNum_pos _ _ (by omega)) _ hratio1
        (le_trans (by norm_num [zpow_neg]) hxlo)
        (lt_of_le_of_lt hxle (by norm_num))
    have hQle : (mq : ℚ) * (2 : ℚ) ^ eq ≤ 1 := by
      have := hqle 1 (by norm_num) (by simpa using hxle)
      simpa using this
    have e53 : (2 : ℚ) ^ (-53 : Int) = 1 / 2 ^ 53 := by norm_num [zpow_neg]
    have e45 : (2 : ℚ) ^ (-45 : Int) = 1 / 2 ^ 45 := by norm_num [zpow_neg]
    rw [e53] at hqerr
    have hQlo : (1 : ℚ) / 2 ^ 32 ≤ (mq : ℚ) * (2 : ℚ) ^ eq := by
      have := (abs_le.mp hqerr).1
      nlinarith
    -- the product with 100.0
    have hratio2 : ((scaleDen (mq * 7036874417766400) (eq + -46) : Nat) : ℚ)
        / ((scaleNum 1 (eq + -46) : Nat) : ℚ) = (mq : ℚ) * (2 : ℚ) ^ eq * 100 := by
      rw [div_quotient, zpow_add₀ two_ne]
      push_cast
      norm_num [zpow_neg]
      ring
    obtain ⟨mr, er, hr, _, _, hrerr, hrle⟩ :=
      roundPos_spec false (scaleDen (mq * 7036874417766400) (eq + -46)) (scaleNum 1 (eq + -46))
        (scaleDen_pos _ _ (Nat.mul_pos (by omega) (by norm_num)))
        (scaleNum_pos _ _ (by norm_num)) _ hratio2
        (le_trans (by norm_num [zpow_neg]) (by linarith : (1 : ℚ) / 2 ^ 32 ≤ _))
        (lt_of_le_of_lt (by linarith : _ ≤ (100 : ℚ)) (by norm_num))
    rw [e53] at hrerr
    have hRle : (mr : ℚ) * (2 : ℚ) ^ er ≤ 100 := by
      have := hrle 100 (by norm_num) (by push_cast; linarith)
      simpa using this
    refine ⟨mr, er, ?_, ?_, hRle⟩
    · rw [ha, hb, div_fin_pos _ _ _ _ (by omega) (by omega), hq, ofInt_hundred,
        mul_fin_pos _ _ _ _ (by omega) (by norm_num)]
      exact hr
    · rw [e45, abs_le]
      obtain ⟨q1, q2⟩ := abs_le.mp hqerr
      obtain ⟨r1, r2⟩ := abs_le.mp hrerr
      have hxe : 100 * (M : ℚ) / (N : ℚ) = 100 * ((M : ℚ) / (N : ℚ)) := by ring
      rw [hxe]
      constructor <;> linarith

end Double

/-! ## The comparison loop -/

namespace ScreenCapture

theorem wrapInt_of_lt (c : Nat) (h : c < 2 ^ 31) : wrapInt (c : Int) = (c : Int) := by
  unfold wrapInt
  norm_num at h ⊢
  omega

/-- The inner loop over the first `w` columns of row `y` adds the number of
columns with equal pixels, as long as the counter stays in the range of `int`. -/
theorem rowLoop_similarPixels (img1 img2 : QImage) (y : Nat) (st : LoopState) (c : Nat)
    (hc : st.similarPixels = (c : Int)) (w : Nat) (hw : c + w < 2 ^ 31) :
    (rowLoop img1 img2 w st y).similarPixels =
      ((c + ((Finset.range w).filter (fun x => img1.pixel x y = img2.pixel x y)).card : Nat)
        : Int) := by
  induction w with
  | zero => simp [rowLoop, hc]
  | succ w ih =>
    have ih' := ih (by omega)
    have hcard : ((Finset.range w).filter (fun x => img1.pixel x y = img2.pixel x y)).card ≤ w :=
      le_trans (Finset.card_filter_le _ _) (by simp)
    unfold rowLoop at ih' ⊢
    rw [List.range_succ, List.foldl_append, List.foldl_cons, List.foldl_nil]
    rw [Finset.range_succ, Finset.filter_insert]
    by_cases hp : img1.pixel w y = img2.pixel w y
    · simp only [compareAt, hp, if_true]
      rw [Finset.card_insert_of_not_mem (by simp), ih']
      rw [show ((c + (Finset.filter (fun x => img1.pixel x y = img2.pixel x y)
          (Finset.range w)).card : Nat) : Int) + 1
        = ((c + (Finset.filter (fun x => img1.pixel x y = img2.pixel x y)
          (Finset.range w)).card + 1 : Nat) : Int) by push_cast; ring]
      rw [wrapInt_of_lt _ (by omega)]
      rfl
    · simp only [compareAt, hp, if_false]
      exact ih'

theorem rowLoop_compared (img1 img2 : QImage) (y : Nat) (st : LoopState) (w : Nat) :
    (rowLoop img1 img2 w st y).compared
      = st.compared ++ (List.range w).map (fun x => (x, y)) := by
  induction w with
  | zero => simp [rowLoop]
  | succ w ih =>
    unfold rowLoop at ih ⊢
    rw [List.range_succ, List.foldl_append, List.foldl_cons, List.foldl_nil]
    simp only [compareAt, ih, List.map_append, List.map_cons, List.map_nil, List.append_assoc]

theorem gridLoop_count (img1 img2 : QImage) (w h : Nat) (hwh : w * h < 2 ^ 31) :
    (gridLoop img1 img2 w h).similarPixels =
      ((∑ y in Finset.range h,
        ((Finset.range w).filter (fun x => img1.pixel x y = img2.pixel x y)).card : Nat)
        : Int) := by
  induction h with
  | zero => simp [gridLoop]
  | succ h ih =>
    have hle : w * h + w = w * (h + 1) := by ring
    have ih' := ih (by omega)
    have hsum : (∑ y in Finset.range h,
        ((Finset.range w).filter (fun x => img1.pixel x y = img2.pixel x y)).card) ≤ w * h := by
      calc _ ≤ ∑ _y in Finset.range h, w :=
            Finset.sum_le_sum (fun y _ => le_trans (Finset.card_filter_le _ _) (by simp))
        _ = w * h := by simp [Nat.mul_comm]
    unfold gridLoop at ih' ⊢
    rw [List.range_succ, List.foldl_append, List.foldl_cons, List.foldl_nil]
    rw [rowLoop_similarPixels img1 img2 h _ _ ih' w (by omega), Finset.sum_range_succ]

theorem gridLoop_compared_aux (img1 img2 : QImage) (w h : Nat) :
    (gridLoop img1 img2 w h).compared = gridCoordinates w h := by
  induction h with
  | zero => simp [gridLoop, gridCoordinates]
  | succ h ih =>
    unfold gridLoop at ih ⊢
    rw [List.range_succ, List.foldl_append, List.foldl_cons, List.foldl_nil,
      rowLoop_compared, ih]
    simp [gridCoordinates, List.range_succ]

/-- Equal and differing coordinates split the grid. -/
theorem matching_add_differing (img1 img2 : QImage) :
    (∑ y in Finset.range img1.height,
      ((Finset.range img1.width).filter (fun x => img1.pixel x y = img2.pixel x y)).card)
      + (differing img1 img2).card = img1.width * img1.height := by
  have h1 : (∑ y in Finset.range img1.height,
      ((Finset.range img1.width).filter (fun x => img1.pixel x y = img2.pixel x y)).card)
      = ((Finset.range img1.width ×ˢ Finset.range img1.height).filter
          (fun p => img1.pixel p.1 p.2 = img2.pixel p.1 p.2)).card := by
    rw [Finset.card_filter, Finset.sum_product_right]
    apply Finset.sum_congr rfl
    intro y _
    rw [Finset.card_filter]
  rw [h1, differing, Finset.filter_card_add_filter_neg_card_eq_card]
  simp

/-- The counter after the two loops: the pixels of the grid minus the
coordinates at which the frames differ. -/
theorem gridLoop_similarPixels (img1 img2 : QImage)
    (hwh : img1.width * img1.height < 2 ^ 31) :
    (gridLoop img1 img2 img1.width img1.height).similarPixels =
      ((img1.width * img1.height - (differing img1 img2).card : Nat) : Int) := by
  rw [gridLoop_count img1 img2 img1.width img1.height hwh]
  have := matching_add_differing img1 img2
  congr 1
  omega

theorem gridLoop_compared (img1 img2 : QImage) :
    (gridLoop img1 img2 img1.width img1.height).compared
      = gridCoordinates img1.width img1.height :=
  gridLoop_compared_aux img1 img2 img1.width img1.height

theorem differing_card_le (img1 img2 : QImage) :
    (differing img1 img2).card ≤ img1.width * img1.height := by
  have := matching_add_differing img1 img2
  omega

theorem differing_self (img : QImage) : differing img img = ∅ := by
  simp [differing]

end ScreenCapture

/-! ## The event loop -/

namespace ScreenCapture

theorem lastCompared_append_updateUI (q : List Event) (d : Double) :
    lastCompared (q ++ [Event.updateUI d]) = lastCompared q := by
  induction q with
  | nil => rfl
  | cons e q ih => cases e <;> simp [lastCompared, ih]

theorem lastCompared_append_capture (q : List Event) (a : QPixmap) :
    lastCompared (q ++ [Event.displayScreenshot a, Event.compareScreenshots a]) = some a := by
  induction q with
  | nil => rfl
  | cons e q ih => cases e <;> simp [lastCompared, ih]

/-- With fuel for every posted call, the event loop stops with an empty queue,
and the stored previous frame is the one of the last posted comparison. -/
theorem processEvents_spec (fuel : Nat) :
    ∀ s : ScreenCapture, (s.eventQueue.map cost).sum ≤ fuel →
      (processEvents fuel s).eventQueue = [] ∧
      (processEvents fuel s).previousScreenshot =
        (lastCompared s.eventQueue).getD s.previousScreenshot := by
  induction fuel with
  | zero =>
    intro s h
    cases hq : s.eventQueue with
    | nil => simp [processEvents, hq, lastCompared]
    | cons e rest =>
      rw [hq] at h
      cases e <;> simp [cost] at h
  | succ fuel ih =>
    intro s h
    cases hq : s.eventQueue with
    | nil => simp [processEvents, hq, lastCompared]
    | cons e rest =>
      rw [hq] at h
      cases e with
      | displayScreenshot p =>
        simp only [List.map_cons, List.sum_cons, cost] at h
        have h2 := ih (dispatch s) (by simp [dispatch, hq, deliver, displayScreenshot]; omega)
        simp only [processEvents, hq]
        refine ⟨h2.1, ?_⟩
        rw [h2.2]
        simp [dispatch, hq, deliver, displayScreenshot, lastCompared]
      | updateUI d =>
        simp only [List.map_cons, List.sum_cons, cost] at h
        have h2 := ih (dispatch s) (by simp [dispatch, hq, deliver, updateUI]; omega)
        simp only [processEvents, hq]
        refine ⟨h2.1, ?_⟩
        rw [h2.2]
        simp [dispatch, hq, deliver, updateUI, lastCompared]
      | compareScreenshots p =>
        simp only [List.map_cons, List.sum_cons, cost] at h
        have h2 := ih (dispatch s)
          (by simp [dispatch, hq, deliver, compareScreenshots, cost]; omega)
        simp only [processEvents, hq]
        refine ⟨h2.1, ?_⟩
        rw [h2.2]
        simp only [dispatch, hq, deliver, compareScreenshots, lastCompared,
          lastCompared_append_updateUI]
        cases lastCompared rest <;> rfl

theorem drain_eventQueue (s : ScreenCapture) : (drain s).eventQueue = [] :=
  (processEvents_spec _ s (le_refl _)).1

theorem cycle_eventQueue (s : ScreenCapture) (f : QPixmap) : (cycle s f).eventQueue = [] :=
  drain_eventQueue _

theorem cycle_previousScreenshot (s : ScreenCapture) (f : QPixmap) :
    (cycle s f).previousScreenshot = f := by
  unfold cycle drain
  rw [(processEvents_spec _ (captureScreen s f) (le_refl _)).2]
  simp [captureScreen, lastCompared_append_capture]

/-- The comparison reads no member but `previousScreenshot`. -/
theorem compareImages_congr (s t : ScreenCapture) (f : QPixmap)
    (h : s.previousScreenshot = t.previousScreenshot) :
    compareImages s f = compareImages t f := by
  simp [compareImages, h]

/-- A capture cycle that starts with no posted call, slot by slot. -/
theorem cycle_of_quiescent (s : ScreenCapture) (f : QPixmap) (h : s.eventQueue = []) :
    cycle s f =
      { s with
        imageLabel := f.scaled 700 500
        warnings := s.warnings ++ (compareImages s f).warnings
        previousScreenshot := f
        similarityLabel := SimilarityText.percent (compareImages s f).value
        eventQueue := [] } := by
  have hc : compareImages (displayScreenshot { s with eventQueue := [] } f) f
      = compareImages s f := compareImages_congr _ _ _ rfl
  simp [cycle, drain, captureScreen, h, cost, processEvents, dispatch, deliver,
    compareScreenshots, updateUI, displayScreenshot, compareImages]

theorem runCycles_snoc (s : ScreenCapture) (fs : List QPixmap) (f : QPixmap) :
    runCycles s (fs ++ [f]) = cycle (runCycles s fs) f := by
  simp [runCycles, List.foldl_append]

end ScreenCapture

/-! ## The claims about the slots and the event loop -/

/-- The size-mismatch path of `compareImages`. -/
theorem size_mismatch_path (self : ScreenCapture) (screenshot : QPixmap)
    (h : screenshot.toImage.width ≠ self.previousScreenshot.toImage.width ∨
      screenshot.toImage.height ≠ self.previousScreenshot.toImage.height) :
    (ScreenCapture.compareImages self screenshot).value = Double.zero false ∧
    (ScreenCapture.compareImages self screenshot).compared = [] ∧
    (ScreenCapture.compareImages self screenshot).warnings = ["Images have different sizes"] := by
  have hs : screenshot.toImage.size ≠ self.previousScreenshot.toImage.size := by
    intro he
    simp only [QImage.size, Prod.mk.injEq] at he
    rcases h with h | h
    · exact h he.1
    · exact h he.2
  simp [ScreenCapture.compareImages, hs]

/-- C3: when the new frame and the stored previous frame differ in width or in
height, `compareImages` returns 0.0 and writes the size warning without
comparing any pixel, whatever the pixels of either frame are. -/
theorem compareImages_size_mismatch (self : ScreenCapture) (screenshot : QPixmap)
    (h : screenshot.toImage.width ≠ self.previousScreenshot.toImage.width ∨
      screenshot.toImage.height ≠ self.previousScreenshot.toImage.height) :
    (ScreenCapture.compareImages self screenshot).value = Double.zero false ∧
    (ScreenCapture.compareImages self screenshot).compared = [] ∧
    (ScreenCapture.compareImages self screenshot).warnings = ["Images have different sizes"] :=
  size_mismatch_path self screenshot h

theorem compareImages_size_mismatch_witness :
    (frameC.toImage.width ≠ (withPrevious frameA).previousScreenshot.toImage.width ∨
      frameC.toImage.height ≠ (withPrevious frameA).previousScreenshot.toImage.height) ∧
    (ScreenCapture.compareImages (withPrevious frameA) frameC).value = Double.zero false ∧
    (ScreenCapture.compareImages (withPrevious frameA) frameC).compared = [] ∧
    (ScreenCapture.compareImages (withPrevious frameA) frameC).warnings =
      ["Images have different sizes"] :=
  ⟨by decide, compareImages_size_mismatch (withPrevious frameA) frameC (by decide)⟩

/-- C5: after `compareScreenshots(S)` the stored previous frame is `S`, on the
path where the sizes matched as on the size-mismatch path. -/
theorem compareScreenshots_stores_frame (self : ScreenCapture) (S : QPixmap) :
    (ScreenCapture.compareScreenshots self S).previousScreenshot = S ∧
    (ScreenCapture.dispatch
      { self with eventQueue := Event.compareScreenshots S :: self.eventQueue }).previousScreenshot
      = S := by
  constructor <;> rfl

/-- C6: `startCapture` and `stopCapture` post no call, write no warning and
leave the stored previous frame, the displayed image and the similarity text
unchanged; so does `startCapture` followed by `stopCapture`. -/
theorem start_stop_frame (self : ScreenCapture) :
    ((ScreenCapture.startCapture self).previousScreenshot = self.previousScreenshot ∧
      (ScreenCapture.startCapture self).imageLabel = self.imageLabel ∧
      (ScreenCapture.startCapture self).similarityLabel = self.similarityLabel ∧
      (ScreenCapture.startCapture self).eventQueue = self.eventQueue ∧
      (ScreenCapture.startCapture self).warnings = self.warnings) ∧
    ((ScreenCapture.stopCapture self).previousScreenshot = self.previousScreenshot ∧
      (ScreenCapture.stopCapture self).imageLabel = self.imageLabel ∧
      (ScreenCapture.stopCapture self).similarityLabel = self.similarityLabel ∧
      (ScreenCapture.stopCapture self).eventQueue = self.eventQueue ∧
      (ScreenCapture.stopCapture self).warnings = self.warnings) ∧
    ((ScreenCapture.run self [Stimulus.clickStart, Stimulus.clickStop]).previousScreenshot
        = self.previousScreenshot ∧
      (ScreenCapture.run self [Stimulus.clickStart, Stimulus.clickStop]).imageLabel
        = self.imageLabel ∧
      (ScreenCapture.run self [Stimulus.clickStart, Stimulus.clickStop]).similarityLabel
        = self.similarityLabel ∧
      (ScreenCapture.run self [Stimulus.clickStart, Stimulus.clickStop]).eventQueue
        = self.eventQueue ∧
      (ScreenCapture.run self [Stimulus.clickStart, Stimulus.clickStop]).warnings
        = self.warnings) := by
  refine ⟨⟨rfl, rfl, rfl, rfl, rfl⟩, ⟨rfl, rfl, rfl, rfl, rfl⟩, ⟨rfl, rfl, rfl, rfl, rfl⟩⟩

theorem dispatch_timer (s : ScreenCapture) :
    (ScreenCapture.dispatch s).captureTimer = s.captureTimer ∧
    (ScreenCapture.dispatch s).runningIndecator = s.runningIndecator := by
  unfold ScreenCapture.dispatch
  cases hq : s.eventQueue with
  | nil => exact ⟨rfl, rfl⟩
  | cons e rest => cases e <;> exact ⟨rfl, rfl⟩

theorem step_indicatorAgrees (s : ScreenCapture) (a : Stimulus) (h : IndicatorAgrees s) :
    IndicatorAgrees (ScreenCapture.step s a) := by
  cases a with
  | clickStart => simp [ScreenCapture.step, ScreenCapture.startCapture, IndicatorAgrees]
  | clickStop => simp [ScreenCapture.step, ScreenCapture.stopCapture, IndicatorAgrees]
  | timeout f =>
    simp only [ScreenCapture.step]
    split
    · exact h
    · exact h
  | processEvent =>
    simp only [ScreenCapture.step, IndicatorAgrees]
    rw [(dispatch_timer s).1, (dispatch_timer s).2]
    exact h

theorem run_indicatorAgrees (actions : List Stimulus) :
    ∀ s : ScreenCapture, IndicatorAgrees s → IndicatorAgrees (ScreenCapture.run s actions) := by
  induction actions with
  | nil => intro s h; exact h
  | cons a rest ih =>
    intro s h
    exact ih _ (step_indicatorAgrees s a h)

/-- C7: in every state reached from the constructor by clicks on Start and Stop,
timeouts of the capture timer and turns of the event loop, the indicator reads
"Program is running" in green exactly when the capture timer is active, its
interval then being 60000 ms, and "Program is not running" in red exactly when
the timer is stopped. -/
theorem indicator_matches_timer (desktop : QPixmap) (actions : List Stimulus) :
    ((ScreenCapture.run (ScreenCapture.new desktop) actions).runningIndecator
        = ⟨"Program is running", "color: green;"⟩ ↔
      ((ScreenCapture.run (ScreenCapture.new desktop) actions).captureTimer.active = true ∧
        (ScreenCapture.run (ScreenCapture.new desktop) actions).captureTimer.interval = 60000)) ∧
    ((ScreenCapture.run (ScreenCapture.new desktop) actions).runningIndecator
        = ⟨"Program is not running", "color: red;"⟩ ↔
      (ScreenCapture.run (ScreenCapture.new desktop) actions).captureTimer.active = false) := by
  have h0 : IndicatorAgrees (ScreenCapture.new desktop) := by
    simp [IndicatorAgrees, ScreenCapture.new]
  have h := run_indicatorAgrees actions _ h0
  generalize ScreenCapture.run (ScreenCapture.new desktop) actions = s at h
  have hne : Indicator.running ≠ Indicator.notRunning := by decide
  obtain ⟨h1, h2⟩ := h
  change (s.runningIndecator = Indicator.running ↔ _) ∧
    (s.runningIndecator = Indicator.notRunning ↔ _)
  cases hact : s.captureTimer.active with
  | true =>
    obtain ⟨hi, hint⟩ := h1 hact
    simp [hi, hint, hne]
  | false =>
    have hi := h2 hact
    simp [hi, hne.symm]

/-- After capture cycles for the frames `fs`, then `a`, then `b`, the stored
frame before the last cycle is `a` and the last cycle shows what `compareImages`
returns for `b` when `a` is stored. -/
theorem runCycles_last_similarity (s : ScreenCapture) (fs : List QPixmap)
    (a b : QPixmap) :
    (ScreenCapture.runCycles s (fs ++ [a])).previousScreenshot = a ∧
    (ScreenCapture.runCycles s (fs ++ [a, b])).similarityLabel =
      SimilarityText.percent (ScreenCapture.compareImages (withPrevious a) b).value := by
  have hprev : (ScreenCapture.runCycles s (fs ++ [a])).previousScreenshot = a := by
    rw [ScreenCapture.runCycles_snoc]
    exact ScreenCapture.cycle_previousScreenshot _ _
  have hq : (ScreenCapture.runCycles s (fs ++ [a])).eventQueue = [] := by
    rw [ScreenCapture.runCycles_snoc]
    exact ScreenCapture.cycle_eventQueue _ _
  refine ⟨hprev, ?_⟩
  have hsplit : fs ++ [a, b] = (fs ++ [a]) ++ [b] := by simp
  rw [hsplit, ScreenCapture.runCycles_snoc, ScreenCapture.cycle_of_quiescent _ _ hq]
  simp only
  rw [ScreenCapture.compareImages_congr _ (withPrevious a) b (by rw [hprev]; rfl)]

/-! ## The claims about the similarity value -/

theorem wrapInt_area (w h : Nat) (hint : w * h < 2 ^ 31) :
    wrapInt ((w : Int) * (h : Int)) = ((w * h : Nat) : Int) := by
  rw [← ScreenCapture.wrapInt_of_lt (w * h) hint]
  push_cast
  rfl

/-- The value `compareImages` returns when the sizes are equal, as an expression
of the number of differing coordinates. -/
theorem compareImages_value_eq (self : ScreenCapture) (screenshot : QPixmap)
    (hsize : screenshot.toImage.size = self.previousScreenshot.toImage.size)
    (hint : screenshot.toImage.width * screenshot.toImage.height < 2 ^ 31) :
    (ScreenCapture.compareImages self screenshot).value =
      Double.mul
        (Double.div
          (Double.ofInt ((screenshot.toImage.width * screenshot.toImage.height
            - (differing screenshot.toImage self.previousScreenshot.toImage).card : Nat) : Int))
          (Double.ofInt ((screenshot.toImage.width * screenshot.toImage.height : Nat) : Int)))
        (Double.ofInt 100) := by
  simp only [ScreenCapture.compareImages, hsize, ne_eq, not_true_eq_false, if_false]
  rw [ScreenCapture.gridLoop_similarPixels _ _ hint, wrapInt_area _ _ hint]

/-- C8: after capture cycles for the frames `fs`, then `a`, then `b` (fewer than
`2^31` pixels), run one cycle at a time from any state, the stored frame before
the last cycle is `a`, and the similarity shown by the last cycle is computed
from the pixels of `b` and of `a`, the frame of the cycle just before: `0.0`
when their sizes differ, else `(double(N - k) / double(N)) * 100.0` where `N`
is the number of pixels of `b` and `k` the number of coordinates at which `b`
and `a` differ; afterwards `b` is the stored frame. -/
theorem similarity_against_preceding_frame (s : ScreenCapture) (fs : List QPixmap)
    (a b : QPixmap) (hint : b.toImage.width * b.toImage.height < 2 ^ 31) :
    (ScreenCapture.runCycles s (fs ++ [a])).previousScreenshot = a ∧
    (ScreenCapture.runCycles s (fs ++ [a, b])).similarityLabel =
      SimilarityText.percent
        (if b.toImage.size ≠ a.toImage.size then Double.zero false
          else
            Double.mul
              (Double.div
                (Double.ofInt ((b.toImage.width * b.toImage.height
                  - (differing b.toImage a.toImage).card : Nat) : Int))
                (Double.ofInt ((b.toImage.width * b.toImage.height : Nat) : Int)))
              (Double.ofInt 100)) ∧
    (ScreenCapture.runCycles s (fs ++ [a, b])).previousScreenshot = b := by
  obtain ⟨hprev, hlabel⟩ := runCycles_last_similarity s fs a b
  refine ⟨hprev, ?_, ?_⟩
  · rw [hlabel]
    by_cases hsize : b.toImage.size = a.toImage.size
    · rw [compareImages_value_eq (withPrevious a) b hsize hint]
      simp only [ne_eq, hsize, not_true_eq_false, if_false]
      rfl
    · have hs : b.toImage.size ≠ (withPrevious a).previousScreenshot.toImage.size := hsize
      simp only [ScreenCapture.compareImages, ne_eq, hs, not_false_eq_true, if_true, hsize]
  · have hsplit : fs ++ [a, b] = (fs ++ [a]) ++ [b] := by simp
    rw [hsplit, ScreenCapture.runCycles_snoc]
    exact ScreenCapture.cycle_previousScreenshot _ _

theorem similarity_against_preceding_frame_witness :
    frameB.toImage.width * frameB.toImage.height < 2 ^ 31 ∧
    ((ScreenCapture.runCycles (ScreenCapture.new QPixmap.null)
        ([frameB, frameC] ++ [frameA])).previousScreenshot = frameA ∧
    (ScreenCapture.runCycles (ScreenCapture.new QPixmap.null)
        ([frameB, frameC] ++ [frameA, frameB])).similarityLabel =
      SimilarityText.percent
        (if frameB.toImage.size ≠ frameA.toImage.size then Double.zero false
          else
            Double.mul
              (Double.div
                (Double.ofInt ((frameB.toImage.width * frameB.toImage.height
                  - (differing frameB.toImage frameA.toImage).card : Nat) : Int))
                (Double.ofInt ((frameB.toImage.width * frameB.toImage.height : Nat) : Int)))
              (Double.ofInt 100)) ∧
    (ScreenCapture.runCycles (ScreenCapture.new QPixmap.null)
        ([frameB, frameC] ++ [frameA, frameB])).previousScreenshot = frameB) ∧
    (ScreenCapture.runCycles (ScreenCapture.new QPixmap.null)
        ([frameB, frameC] ++ [frameA, frameB])).similarityLabel
      = SimilarityText.percent (Double.ofInt 75) :=
  ⟨by decide,
    similarity_against_preceding_frame (ScreenCapture.new QPixmap.null) [frameB, frameC]
      frameA frameB (by decide),
    by decide⟩

/-- C2 (as amended): for frames of equal dimensions with `N = width * height`
pixels, `0 < N < 2^31`, that differ at exactly `k` of the `N` coordinates,
`compareImages` compares every coordinate of the grid once, writes no warning
and returns the binary64 value `(double(N - k) / double(N)) * 100.0`, which is
finite, lies in `[0, 100]` and is within `2^-45` of `100 * (N - k) / N`; the
2x2 frames white, white, black, black and white, black, black, black give
exactly `75`. -/
theorem compareImages_differing (self : ScreenCapture) (screenshot : QPixmap) (N k : Nat)
    (hsize : screenshot.toImage.size = self.previousScreenshot.toImage.size)
    (hN : screenshot.toImage.width * screenshot.toImage.height = N)
    (hpos : 0 < N) (hint : N < 2 ^ 31)
    (hk : (differing screenshot.toImage self.previousScreenshot.toImage).card = k) :
    (ScreenCapture.compareImages self screenshot).value =
      Double.mul (Double.div (Double.ofInt ((N - k : Nat) : Int)) (Double.ofInt (N : Int)))
        (Double.ofInt 100) ∧
    (∃ q : ℚ, (ScreenCapture.compareImages self screenshot).value.toRat? = some q ∧
      |q - 100 * ((N : ℚ) - (k : ℚ)) / (N : ℚ)| ≤ (2 : ℚ) ^ (-45 : Int) ∧ 0 ≤ q ∧ q ≤ 100) ∧
    (ScreenCapture.compareImages self screenshot).compared
      = gridCoordinates screenshot.toImage.width screenshot.toImage.height ∧
    (ScreenCapture.compareImages self screenshot).warnings = [] ∧
    (ScreenCapture.compareImages (withPrevious frameA) frameB).value = Double.ofInt 75 := by
  subst hN
  subst hk
  have hv := compareImages_value_eq self screenshot hsize hint
  have hkle := ScreenCapture.differing_card_le screenshot.toImage
    self.previousScreenshot.toImage
  refine ⟨hv, ?_, ?_, ?_, by decide⟩
  · obtain ⟨m, e, h1, h2, h3⟩ := Double.percent_spec
      (screenshot.toImage.width * screenshot.toImage.height
        - (differing screenshot.toImage self.previousScreenshot.toImage).card)
      (screenshot.toImage.width * screenshot.toImage.height) hpos hint (Nat.sub_le _ _)
    refine ⟨(m : ℚ) * (2 : ℚ) ^ e, ?_, ?_, by positivity, h3⟩
    · rw [hv, h1]
      simp [Double.toRat?]
    · rw [Nat.cast_sub hkle] at h2
      exact h2
  · simp only [ScreenCapture.compareImages, hsize, ne_eq, not_true_eq_false, if_false]
    exact ScreenCapture.gridLoop_compared _ _
  · simp only [ScreenCapture.compareImages, hsize, ne_eq, not_true_eq_false, if_false]

theorem compareImages_differing_witness :
    frameB.toImage.size = (withPrevious frameA).previousScreenshot.toImage.size ∧
    frameB.toImage.width * frameB.toImage.height = 4 ∧
    0 < 4 ∧ 4 < 2 ^ 31 ∧
    (differing frameB.toImage (withPrevious frameA).previousScreenshot.toImage).card = 1 ∧
    ((ScreenCapture.compareImages (withPrevious frameA) frameB).value =
      Double.mul (Double.div (Double.ofInt ((4 - 1 : Nat) : Int)) (Double.ofInt ((4 : Nat) : Int)))
        (Double.ofInt 100) ∧
    (∃ q : ℚ, (ScreenCapture.compareImages (withPrevious frameA) frameB).value.toRat? = some q ∧
      |q - 100 * (((4 : Nat) : ℚ) - ((1 : Nat) : ℚ)) / ((4 : Nat) : ℚ)| ≤ (2 : ℚ) ^ (-45 : Int) ∧
      0 ≤ q ∧ q ≤ 100) ∧
    (ScreenCapture.compareImages (withPrevious frameA) frameB).compared
      = gridCoordinates frameB.toImage.width frameB.toImage.height ∧
    (ScreenCapture.compareImages (withPrevious frameA) frameB).warnings = [] ∧
    (ScreenCapture.compareImages (withPrevious frameA) frameB).value = Double.ofInt 75) :=
  ⟨by decide, by decide, by decide, by decide, by decide,
    compareImages_differing (withPrevious frameA) frameB 4 1 (by decide) (by decide)
      (by decide) (by decide) (by decide)⟩

/-- Counterexample to C2 as stated: the 3x1 frames `frameC` and `frameD` have equal
dimensions and differ at exactly 2 of their 3 coordinates, and `compareImages`
returns the binary64 value `4691249611844266 * 2^-47` (33.33333333333333), which
is not `100 * (3 - 2) / 3`; and for two empty frames (`N = 0`) it returns NaN,
which has no value at all. -/
theorem compareImages_rounds :
    (frameD.toImage.size = (withPrevious frameC).previousScreenshot.toImage.size ∧
      frameD.toImage.width * frameD.toImage.height = 3 ∧
      (differing frameD.toImage (withPrevious frameC).previousScreenshot.toImage).card = 2 ∧
      (ScreenCapture.compareImages (withPrevious frameC) frameD).value
        = Double.fin false 4691249611844266 (-47) ∧
      (ScreenCapture.compareImages (withPrevious frameC) frameD).value.toRat?
        ≠ some (100 * ((3 : ℚ) - 2) / 3)) ∧
    (QPixmap.null.toImage.size = (withPrevious QPixmap.null).previousScreenshot.toImage.size ∧
      QPixmap.null.toImage.width * QPixmap.null.toImage.height = 0 ∧
      (ScreenCapture.compareImages (withPrevious QPixmap.null) QPixmap.null).value.toRat?
        = none) := by
  refine ⟨⟨by decide, by decide, by decide, by decide, ?_⟩, by decide, by decide, ?_⟩
  · have h : (ScreenCapture.compareImages (withPrevious frameC) frameD).value
        = Double.fin false 4691249611844266 (-47) := by decide
    rw [h]
    simp only [Double.toRat?, ne_eq, Option.some.injEq]
    norm_num [zpow_neg]
  · have h : (ScreenCapture.compareImages (withPrevious QPixmap.null) QPixmap.null).value
        = Double.nan := by decide
    rw [h]
    rfl

/-- Identical frames with at least one pixel compare to exactly `100.0`. -/
theorem compareImages_identical_nonempty (self : ScreenCapture) (F : QPixmap)
    (hprev : self.previousScreenshot = F)
    (hpos : 0 < F.toImage.width * F.toImage.height)
    (hint : F.toImage.width * F.toImage.height < 2 ^ 31) :
    (ScreenCapture.compareImages self F).value = Double.ofInt 100 := by
  have hv := compareImages_value_eq self F (by rw [hprev]) hint
  rw [hprev, ScreenCapture.differing_self, Finset.card_empty, Nat.sub_zero] at hv
  obtain ⟨m, e, h1, h2, _, _⟩ := Double.ofInt_pos (F.toImage.width * F.toImage.height) hpos
    (by omega)
  rw [hv, h1, Double.div_fin_pos _ _ _ _ (by omega) (by omega)]
  have hs : Double.scaleDen m (e - e) = m := by simp [Double.scaleDen]
  have hs2 : Double.scaleNum m (e - e) = m := by simp [Double.scaleNum]
  rw [hs, hs2, Double.roundPos_self false m (by omega)]
  decide

/-- C1 at the empty frame: with the null pixmap stored as previous frame,
`compareImages` of the null pixmap divides zero by zero and returns NaN, not
`100.0`. -/
theorem compareImages_identical_empty :
    (withPrevious QPixmap.null).previousScreenshot = QPixmap.null ∧
    (ScreenCapture.compareImages (withPrevious QPixmap.null) QPixmap.null).value = Double.nan ∧
    (ScreenCapture.compareImages (withPrevious QPixmap.null) QPixmap.null).value
      ≠ Double.ofInt 100 := by
  decide

/-- Outside the empty-against-empty comparison the value is a percentage:
`0 <= p` and `p <= 100` hold in binary64. -/
theorem compareImages_in_range (self : ScreenCapture) (screenshot : QPixmap)
    (hint : screenshot.toImage.width * screenshot.toImage.height < 2 ^ 31)
    (hne : 0 < screenshot.toImage.width * screenshot.toImage.height ∨
      screenshot.toImage.size ≠ self.previousScreenshot.toImage.size) :
    Double.le (Double.ofInt 0) (ScreenCapture.compareImages self screenshot).value = true ∧
    Double.le (ScreenCapture.compareImages self screenshot).value (Double.ofInt 100) = true := by
  by_cases hsize : screenshot.toImage.size = self.previousScreenshot.toImage.size
  · have hpos : 0 < screenshot.toImage.width * screenshot.toImage.height := by
      rcases hne with h | h
      · exact h
      · exact absurd hsize h
    obtain ⟨m, e, h1, _, h3⟩ := Double.percent_spec
      (screenshot.toImage.width * screenshot.toImage.height
        - (differing screenshot.toImage self.previousScreenshot.toImage).card)
      (screenshot.toImage.width * screenshot.toImage.height) hpos hint (Nat.sub_le _ _)
    rw [compareImages_value_eq self screenshot hsize hint, h1, Double.ofInt_zero,
      Double.ofInt_hundred, Double.le_fin_iff, Double.le_fin_iff]
    constructor
    · simp
      positivity
    · refine le_trans h3 (le_of_eq ?_)
      norm_num [zpow_neg]
  · simp only [ScreenCapture.compareImages, ne_eq, hsize, not_false_eq_true, if_true]
    decide

/-- C4 at the empty frame: from the constructor's state, a capture cycle whose
grab is the null pixmap shows the similarity NaN, for which neither `0 <= p`
nor `p <= 100` holds. -/
theorem similarity_of_empty_frames :
    (ScreenCapture.cycle (ScreenCapture.new QPixmap.null) QPixmap.null).similarityLabel
      = SimilarityText.percent Double.nan ∧
    Double.le (Double.ofInt 0)
      (ScreenCapture.compareImages (ScreenCapture.new QPixmap.null) QPixmap.null).value = false ∧
    Double.le (ScreenCapture.compareImages (ScreenCapture.new QPixmap.null) QPixmap.null).value
      (Double.ofInt 100) = false := by
  decide

/-- C10: from the constructor's state, where the stored previous frame is the
null pixmap, the first capture cycle of a frame with positive width and height
takes the size-mismatch path: no pixel is compared, the warning is written and
the similarity shown is `0.0`. -/
theorem first_cycle_similarity_zero (desktop f : QPixmap)
    (hw : 0 < f.toImage.width) (_hh : 0 < f.toImage.height) :
    (ScreenCapture.new desktop).previousScreenshot = QPixmap.null ∧
    (ScreenCapture.cycle (ScreenCapture.new desktop) f).similarityLabel
      = SimilarityText.percent (Double.zero false) ∧
    (ScreenCapture.cycle (ScreenCapture.new desktop) f).warnings
      = ["Images have different sizes"] ∧
    (ScreenCapture.compareImages (ScreenCapture.new desktop) f).compared = [] := by
  have hm := size_mismatch_path (ScreenCapture.new desktop) f
    (Or.inl (by
      show f.toImage.width ≠ 0
      omega))
  refine ⟨rfl, ?_, ?_, hm.2.1⟩
  · rw [ScreenCapture.cycle_of_quiescent _ _ rfl]
    simp only [hm.1]
  · rw [ScreenCapture.cycle_of_quiescent _ _ rfl]
    simp only [hm.2.2]
    rfl

theorem first_cycle_similarity_zero_witness :
    0 < frameA.toImage.width ∧ 0 < frameA.toImage.height ∧
    ((ScreenCapture.new QPixmap.null).previousScreenshot = QPixmap.null ∧
    (ScreenCapture.cycle (ScreenCapture.new QPixmap.null) frameA).similarityLabel
      = SimilarityText.percent (Double.zero false) ∧
    (ScreenCapture.cycle (ScreenCapture.new QPixmap.null) frameA).warnings
      = ["Images have different sizes"] ∧
    (ScreenCapture.compareImages (ScreenCapture.new QPixmap.null) frameA).compared = []) :=
  ⟨by decide, by decide,
    first_cycle_similarity_zero QPixmap.null frameA (by decide) (by decide)⟩

/-- Counterexample to C9 as stated: from the constructor's state, one turn of the event
loop after `captureScreen` grabbed `frameA`, the image area shows `frameA`
while the stored previous frame is still the null pixmap, the comparison is
still posted and the similarity text is unchanged. -/
theorem shown_before_compared :
    ¬ ShownOnlyAfterStored (ScreenCapture.new QPixmap.null) frameA ∧
    (ScreenCapture.dispatch
      (ScreenCapture.captureScreen (ScreenCapture.new QPixmap.null) frameA)).imageLabel.source
      = frameA ∧
    (ScreenCapture.dispatch
      (ScreenCapture.captureScreen (ScreenCapture.new QPixmap.null) frameA)).previousScreenshot
      = QPixmap.null ∧
    (ScreenCapture.dispatch
      (ScreenCapture.captureScreen (ScreenCapture.new QPixmap.null) frameA)).eventQueue
      = [Event.compareScreenshots frameA] ∧
    (ScreenCapture.dispatch
      (ScreenCapture.captureScreen (ScreenCapture.new QPixmap.null) frameA)).similarityLabel
      = SimilarityText.notAvailable := by
  refine ⟨?_, by decide, by decide, by decide, by decide⟩
  intro h
  have h1 := h 1 (by decide)
  revert h1
  decide

/-- C9 (as amended): in a capture cycle that starts with no posted call, the
event loop runs `displayScreenshot`, then `compareScreenshots`, then `updateUI`:
the new frame is shown in the image area first, while the stored previous frame
and the similarity text are still the old ones; then it is compared against the
stored previous frame and stored as previous; the similarity text is updated
last. -/
theorem cycle_order (s : ScreenCapture) (f : QPixmap) (h : s.eventQueue = []) :
    ScreenCapture.deliveries 3 (ScreenCapture.captureScreen s f)
      = [Event.displayScreenshot f, Event.compareScreenshots f,
          Event.updateUI (ScreenCapture.compareImages s f).value] ∧
    ((ScreenCapture.dispatch)^[1] (ScreenCapture.captureScreen s f)).imageLabel
      = f.scaled 700 500 ∧
    ((ScreenCapture.dispatch)^[1] (ScreenCapture.captureScreen s f)).previousScreenshot
      = s.previousScreenshot ∧
    ((ScreenCapture.dispatch)^[1] (ScreenCapture.captureScreen s f)).similarityLabel
      = s.similarityLabel ∧
    ((ScreenCapture.dispatch)^[2] (ScreenCapture.captureScreen s f)).previousScreenshot = f ∧
    ((ScreenCapture.dispatch)^[2] (ScreenCapture.captureScreen s f)).similarityLabel
      = s.similarityLabel ∧
    ((ScreenCapture.dispatch)^[3] (ScreenCapture.captureScreen s f)).similarityLabel
      = SimilarityText.percent (ScreenCapture.compareImages s f).value ∧
    ((ScreenCapture.dispatch)^[3] (ScreenCapture.captureScreen s f)) = ScreenCapture.cycle s f := by
  have hc : ScreenCapture.compareImages
      (ScreenCapture.displayScreenshot { s with eventQueue := [Event.compareScreenshots f] } f) f
      = ScreenCapture.compareImages s f := ScreenCapture.compareImages_congr _ _ _ rfl
  rw [ScreenCapture.cycle_of_quiescent s f h]
  simp [ScreenCapture.deliveries, ScreenCapture.captureScreen, h, ScreenCapture.dispatch,
    ScreenCapture.deliver, ScreenCapture.compareScreenshots, ScreenCapture.updateUI,
    ScreenCapture.displayScreenshot, ScreenCapture.compareImages]

theorem cycle_order_witness :
    (ScreenCapture.new QPixmap.null).eventQueue = [] ∧
    (ScreenCapture.deliveries 3 (ScreenCapture.captureScreen (ScreenCapture.new QPixmap.null) frameA)
      = [Event.displayScreenshot frameA, Event.compareScreenshots frameA,
          Event.updateUI
            (ScreenCapture.compareImages (ScreenCapture.new QPixmap.null) frameA).value] ∧
    ((ScreenCapture.dispatch)^[1]
      (ScreenCapture.captureScreen (ScreenCapture.new QPixmap.null) frameA)).imageLabel
      = frameA.scaled 700 500 ∧
    ((ScreenCapture.dispatch)^[1]
      (ScreenCapture.captureScreen (ScreenCapture.new QPixmap.null) frameA)).previousScreenshot
      = (ScreenCapture.new QPixmap.null).previousScreenshot ∧
    ((ScreenCapture.dispatch)^[1]
      (ScreenCapture.captureScreen (ScreenCapture.new QPixmap.null) frameA)).similarityLabel
      = (ScreenCapture.new QPixmap.null).similarityLabel ∧
    ((ScreenCapture.dispatch)^[2]
      (ScreenCapture.captureScreen (ScreenCapture.new QPixmap.null) frameA)).previousScreenshot
      = frameA ∧
    ((ScreenCapture.dispatch)^[2]
      (ScreenCapture.captureScreen (ScreenCapture.new QPixmap.null) frameA)).similarityLabel
      = (ScreenCapture.new QPixmap.null).similarityLabel ∧
    ((ScreenCapture.dispatch)^[3]
      (ScreenCapture.captureScreen (ScreenCapture.new QPixmap.null) frameA)).similarityLabel
      = SimilarityText.percent
          (ScreenCapture.compareImages (ScreenCapture.new QPixmap.null) frameA).value ∧
    ((ScreenCapture.dispatch)^[3]
      (ScreenCapture.captureScreen (ScreenCapture.new QPixmap.null) frameA))
      = ScreenCapture.cycle (ScreenCapture.new QPixmap.null) frameA) :=
  ⟨rfl, cycle_order (ScreenCapture.new QPixmap.null) frameA rfl⟩
